import Mathlib

/-!
Shallow embedding of the Bitcask-style storage engine (src/src/lib.rs).

Bytes are modelled as natural numbers, files as byte lists, the filesystem
as an association list from (segment id, is-temp) to file contents.  The
in-memory `BTreeMap`s of the source (`key_dir`, `delete_map`, `free_slots`)
are modelled as key-sorted association lists with the same insert/remove
semantics; the `BTreeSet` of segment ids to swap is a sorted duplicate-free
list.  The key and value codec (serde/bincode in the source) is external to
the engine and is modelled as an abstract `Codec` record; the fixed-width
integers that the record layer itself serializes (`usize` lengths, `u32`
checksum) are modelled as 8- and 4-byte little-endian sequences, matching
bincode's fixed-int encoding.  Fallible filesystem steps return an error
value; `get`, which in the source unwraps every failure with `expect`,
returns a dedicated `panicked` outcome on those paths.
-/

namespace Bitcask

abbrev Bytes := List Nat

/-- A file name `{prefix}.{id}.db` or `{prefix}.{id}.temp.db` is identified
by the segment id and a temp flag (the prefix is fixed per handle). -/
abbrev FileId := Nat × Bool

abbrev FS := List (FileId × Bytes)

/-- Little-endian fixed-width byte encoding (width `w`). -/
def toLE : Nat → Nat → Bytes
  | 0, _ => []
  | w + 1, n => n % 256 :: toLE w (n / 256)

/-- Struct `Slot` from the source: an extent inside one segment file. -/
structure Slot where
  file_id : Nat
  start : Nat
  stop : Nat
deriving DecidableEq

/-- One directory entry `(file_id, value_len, value_pos, Slot)`. -/
structure Entry where
  file_id : Nat
  value_len : Nat
  value_pos : Nat
  slot : Slot
deriving DecidableEq

/-- The pluggable key/value codec (serde/bincode in the source) together
with the checksum function; the engine treats key and value encodings as
opaque blobs and never inspects the checksum after writing it. -/
structure Codec (K V : Type) where
  encKey : K → Bytes
  encVal : V → Bytes
  decVal : Bytes → Option V
  crc : Bytes → Nat

/-- In-memory handle state of `OnDisk` plus the modelled filesystem. -/
structure DbState (K : Type) where
  key_dir : List (K × Entry)
  delete_map : List (K × Entry)
  file_id : Nat
  file_position : Nat
  is_dirty : Bool
  free_slots : List (Nat × List Slot)
  fs : FS
deriving DecidableEq

inductive DbErr where
  | ioError
  | decodeError
deriving DecidableEq

/-- Result of `get`: the source returns `Option<V>` and `expect`-panics on
any I/O or decode failure, so a panic is a distinct observable outcome. -/
inductive GetResult (V : Type) where
  | absent
  | found (v : V)
  | panicked
deriving DecidableEq

/-- First-match association-list lookup. -/
def alLookup {α β : Type} [DecidableEq α] : List (α × β) → α → Option β
  | [], _ => none
  | (k', v) :: rest, k => if k = k' then some v else alLookup rest k

/-- Remove a key from an association list. -/
def alErase {α β : Type} [DecidableEq α] : List (α × β) → α → List (α × β)
  | [], _ => []
  | (k', v) :: rest, k => if k' = k then alErase rest k else (k', v) :: alErase rest k

/-- Insert or replace a binding (used for the unordered filesystem map). -/
def alUpdate {α β : Type} [DecidableEq α] (m : List (α × β)) (k : α) (v : β) : List (α × β) :=
  (k, v) :: alErase m k

/-- Ordered-map insert, keeping the list sorted by key (`BTreeMap::insert`). -/
def smInsert {α β : Type} [LinearOrder α] : List (α × β) → α → β → List (α × β)
  | [], k, v => [(k, v)]
  | (k', v') :: rest, k, v =>
    if k < k' then (k, v) :: (k', v') :: rest
    else if k = k' then (k, v) :: rest
    else (k', v') :: smInsert rest k v

/-- Sorted duplicate-free insert (`BTreeSet::insert`). -/
def setInsert : List Nat → Nat → List Nat
  | [], x => [x]
  | y :: rest, x =>
    if x < y then x :: y :: rest
    else if x = y then y :: rest
    else y :: setInsert rest x

/-- Model of `free_slots.range(len..).next()`: first bucket with length at least `len`
(the buckets are kept sorted by length). -/
def findBucket (m : List (Nat × List Slot)) (len : Nat) : Option (Nat × List Slot) :=
  m.find? (fun p => len ≤ p.1)

/-- The extent `put` would reuse: last slot of the first bucket of length
at least `len`, if any. -/
def chooseSlot (m : List (Nat × List Slot)) (len : Nat) : Option Slot :=
  match findBucket m len with
  | none => none
  | some (_, slots) => slots.getLast?

/-- Model of `free_slots.entry(len).or_default().push(s)`. -/
def bucketPush (m : List (Nat × List Slot)) (len : Nat) (s : Slot) : List (Nat × List Slot) :=
  smInsert m len ((alLookup m len).getD [] ++ [s])

/-- Overwrite `bs` inside file `f` starting at `pos`, zero-padding if the
write begins past the end of the file. -/
def writeAt (f : Bytes) (pos : Nat) (bs : Bytes) : Bytes :=
  (f ++ List.replicate (pos - f.length) 0).take pos ++ bs ++ f.drop (pos + bs.length)

/-- Model of `read_exact` of `len` bytes at `pos`: fails (short read) if the file is
too small. -/
def readAt (f : Bytes) (pos len : Nat) : Option Bytes :=
  if pos + len ≤ f.length then some ((f.drop pos).take len) else none

/-- bincode encoding of a `usize` length: 8 bytes little-endian. -/
def encLen (n : Nat) : Bytes := toLE 8 n

/-- bincode encoding of the `u32` checksum: 4 bytes little-endian. -/
def encChk (n : Nat) : Bytes := toLE 4 n

/-- Everything of a record that precedes the value bytes:
checksum, key length, value length, key bytes. -/
def recordHeader {K V : Type} (c : Codec K V) (k : K) (v : V) : Bytes :=
  let sk := c.encKey k
  let sv := c.encVal v
  let skl := encLen sk.length
  let svl := encLen sv.length
  encChk (c.crc (skl ++ svl ++ sk ++ sv)) ++ skl ++ svl ++ sk

/-- Quantity `total_len` as computed by `put`: whole record length in bytes. -/
def totalLen {K V : Type} (c : Codec K V) (k : K) (v : V) : Nat :=
  (recordHeader c k v).length + (c.encVal v).length

/-- Model of `OnDisk::open`: fresh handle, segment 1 created empty. -/
def openDb (K : Type) : DbState K :=
  { key_dir := []
  , delete_map := []
  , file_id := 1
  , file_position := 0
  , is_dirty := false
  , free_slots := []
  , fs := [((1, false), [])] }

/-- Model of `Db::delete`: remove the directory entry; if one existed, push its slot
into the free-slot bucket of its length and record it in the delete log.
The source never fails here. -/
def delete {K : Type} [LinearOrder K] (st : DbState K) (k : K) : DbState K :=
  match alLookup st.key_dir k with
  | none => st
  | some e =>
    { st with
      key_dir := alErase st.key_dir k
      free_slots := bucketPush st.free_slots (e.slot.stop - e.slot.start) e.slot
      delete_map := smInsert st.delete_map k e }

/-- The state after `put`'s first step: if the key is live it is deleted
first, so its prior extent becomes free. -/
def putBase {K : Type} [LinearOrder K] (st : DbState K) (k : K) : DbState K :=
  if (alLookup st.key_dir k).isSome then delete st k else st

/-- The tail-append arm of `put`: seek to `file_position` in the active
segment and write the record there. -/
def putAppend {K V : Type} [LinearOrder K] (c : Codec K V) (st1 : DbState K)
    (k : K) (v : V) : DbState K × Option DbErr :=
  match alLookup st1.fs (st1.file_id, false) with
  | none => (st1, some DbErr.ioError)
  | some f =>
    let hdr := recordHeader c k v
    let sv := c.encVal v
    let value_pos := st1.file_position + hdr.length
    let end_pos := value_pos + sv.length
    ({ st1 with
       key_dir := smInsert st1.key_dir k
         ⟨st1.file_id, sv.length, value_pos, ⟨st1.file_id, st1.file_position, end_pos⟩⟩
       file_position := end_pos
       is_dirty := true
       fs := alUpdate st1.fs (st1.file_id, false) (writeAt f st1.file_position (hdr ++ sv)) }
    , none)

/-- Model of `Db::put`: delete a live prior entry, then either reuse the last slot of
the first free bucket whose length is at least the record length, or append
at the active segment's tail.  Note that the reuse arm also assigns
`file_position := end_pos`, exactly as the source does. -/
def put {K V : Type} [LinearOrder K] (c : Codec K V) (st : DbState K)
    (k : K) (v : V) : DbState K × Option DbErr :=
  let st1 := putBase st k
  let hdr := recordHeader c k v
  let sv := c.encVal v
  match findBucket st1.free_slots (totalLen c k v) with
  | some (len, slots) =>
    match slots.getLast? with
    | some s =>
      match alLookup st1.fs (s.file_id, false) with
      | none => (st1, some DbErr.ioError)
      | some f =>
        let value_pos := s.start + hdr.length
        let end_pos := value_pos + sv.length
        ({ st1 with
           key_dir := smInsert st1.key_dir k
             ⟨s.file_id, sv.length, value_pos, ⟨s.file_id, s.start, end_pos⟩⟩
           free_slots := smInsert st1.free_slots len slots.dropLast
           file_position := end_pos
           is_dirty := true
           fs := alUpdate st1.fs (s.file_id, false) (writeAt f s.start (hdr ++ sv)) }
        , none)
    | none => putAppend c st1 k v
  | none => putAppend c st1 k v

/-- Model of `Db::get`: absent keys yield `absent`; a missing segment file, a short
read, or a decode failure hits an `expect` in the source and panics. -/
def get {K V : Type} [LinearOrder K] (c : Codec K V) (st : DbState K) (k : K) : GetResult V :=
  match alLookup st.key_dir k with
  | none => GetResult.absent
  | some e =>
    match alLookup st.fs (e.file_id, false) with
    | none => GetResult.panicked
    | some f =>
      match readAt f e.value_pos e.value_len with
      | none => GetResult.panicked
      | some buf =>
        match c.decVal buf with
        | none => GetResult.panicked
        | some v => GetResult.found v

/-- Model of `ToDisk::sync`: if dirty, roll the active segment (increment the id,
create-and-truncate the new file, reset the tail, clear dirty); otherwise a
no-op. -/
def sync {K : Type} (st : DbState K) : DbState K :=
  if st.is_dirty then
    { st with
      file_id := st.file_id + 1
      fs := alUpdate st.fs (st.file_id + 1, false) []
      file_position := 0
      is_dirty := false }
  else st

/-- The empty-directory arm of `prune`: `fs::remove_file` for each segment
id in `2..=file_id`; a missing file is an I/O error.  The partially updated
filesystem is returned alongside any error, mirroring in-place mutation. -/
def removeFiles : FS → List Nat → FS × Option DbErr
  | fs, [] => (fs, none)
  | fs, i :: rest =>
    match alLookup fs (i, false) with
    | none => (fs, some DbErr.ioError)
    | some _ => removeFiles (alErase fs (i, false)) rest

/-- Opening with `create(true)`: the file comes into existence (empty) if it
was absent. -/
def fsEnsure (fs : FS) (fid : FileId) : FS :=
  match alLookup fs fid with
  | some _ => fs
  | none => alUpdate fs fid []

/-- The per-entry rewrite loop of `prune`.  For each live entry: open (and
create) the temp file of the entry's segment, read and decode the live
value from the original segment, then `serialize_to_file` into the temp
file.  `serialize_to_file` seeks to the end of that file and returns
`self.file_id` — the ACTIVE segment id, not the temp file's id — as the new
entry's segment and as the id marked for swapping; this shadowing is
preserved faithfully from the source. -/
def pruneLoop {K V : Type} [LinearOrder K] (c : Codec K V) (active : Nat) :
    List (K × Entry) → FS → List (K × Entry) → List Nat →
    FS × List (K × Entry) × List Nat × Option DbErr
  | [], fs, nd, sw => (fs, nd, sw, none)
  | (k, e) :: rest, fs, nd, sw =>
    let fsA := fsEnsure fs (e.file_id, true)
    match alLookup fsA (e.file_id, false) with
    | none => (fsA, nd, sw, some DbErr.ioError)
    | some f =>
      match readAt f e.value_pos e.value_len with
      | none => (fsA, nd, sw, some DbErr.ioError)
      | some buf =>
        match c.decVal buf with
        | none => (fsA, nd, sw, some DbErr.decodeError)
        | some v =>
          let tf := (alLookup fsA (e.file_id, true)).getD []
          let hdr := recordHeader c k v
          let sv := c.encVal v
          let start := tf.length
          let fsB := alUpdate fsA (e.file_id, true) (tf ++ hdr ++ sv)
          pruneLoop c active rest fsB
            (smInsert nd k
              ⟨active, sv.length, start + hdr.length,
               ⟨active, start, start + (hdr.length + sv.length)⟩⟩)
            (setInsert sw active)

/-- The swap loop of `prune`: rename `{prefix}.{id}.temp.db` over
`{prefix}.{id}.db` for each marked id (the `try_exists(..).is_ok()` guard in
the source is always true, so the rename is always attempted and fails if
the temp file is missing). -/
def swapFiles : FS → List Nat → FS × Option DbErr
  | fs, [] => (fs, none)
  | fs, fid :: rest =>
    match alLookup fs (fid, true) with
    | none => (fs, some DbErr.ioError)
    | some content =>
      swapFiles (alUpdate (alErase fs (fid, true)) (fid, false) content) rest

/-- Model of `ToDisk::prune`: a no-op on a clean handle; otherwise remove all
segments `2..=file_id` when the directory is empty, rewrite each live entry
into a temp file, swap the marked segments, then install the fresh
directory, clear the delete log and clear dirty.  `free_slots` is NOT
touched, exactly as in the source. -/
def prune {K V : Type} [LinearOrder K] (c : Codec K V) (st : DbState K) :
    DbState K × Option DbErr :=
  if st.is_dirty then
    match (if st.key_dir.isEmpty then
             removeFiles st.fs (List.range' 2 (st.file_id - 1))
           else (st.fs, none)) with
    | (fs0, some e) => ({ st with fs := fs0 }, some e)
    | (fs0, none) =>
      match pruneLoop c st.file_id st.key_dir fs0 [] [] with
      | (fs1, _, _, some e) => ({ st with fs := fs1 }, some e)
      | (fs1, nd, sw, none) =>
        match swapFiles fs1 sw with
        | (fs2, some e) => ({ st with fs := fs2 }, some e)
        | (fs2, none) =>
          ({ st with fs := fs2, delete_map := [], key_dir := nd, is_dirty := false }, none)
  else (st, none)

/-- The operation script type used by the fuzz harness. -/
inductive Op (K V : Type) where
  | putOp (k : K) (v : V)
  | delOp (k : K)
  | updateOp (k : K) (v : V)
  | pruneOp
  | syncOp

/-- One step of `eval_op` (`Update` is identical to `Put`; `delete` and
`sync` cannot fail in the model). -/
def applyOp {K V : Type} [LinearOrder K] (c : Codec K V) (st : DbState K) :
    Op K V → DbState K × Option DbErr
  | Op.putOp k v => put c st k v
  | Op.updateOp k v => put c st k v
  | Op.delOp k => (delete st k, none)
  | Op.pruneOp => prune c st
  | Op.syncOp => (sync st, none)

/-- Run a script from a state; `eval_op` unwraps every result, so a failing
operation aborts the run (`none`). -/
def runOps {K V : Type} [LinearOrder K] (c : Codec K V) (st : DbState K) :
    List (Op K V) → Option (DbState K)
  | [] => some st
  | op :: rest =>
    match applyOp c st op with
    | (st', none) => runOps c st' rest
    | (_, some _) => none

/-- How one operation transforms the dirty flag when it succeeds: `put` and
`update` set it, `sync` and `prune` clear it, `delete` leaves it alone. -/
def dirtyStep {K V : Type} (b : Bool) : Op K V → Bool
  | Op.putOp _ _ => true
  | Op.updateOp _ _ => true
  | Op.syncOp => false
  | Op.pruneOp => false
  | Op.delOp _ => b

/-- Whether a script contains a put (or update) after its last sync/prune. -/
def putSinceClear {K V : Type} (ops : List (Op K V)) : Bool :=
  ops.foldl dirtyStep false

/-- A concrete codec instance for witnesses and counterexamples: keys are
naturals encoded as a single byte-symbol, values are byte lists encoded
with a length prefix, the checksum function is constant (no claim inspects
checksum bytes, only their 4-byte width). -/
def natListCodec : Codec Nat (List Nat) :=
  { encKey := fun n => [n]
  , encVal := fun v => v.length :: v
  , decVal := fun bs =>
      match bs with
      | [] => none
      | n :: rest => if rest.length = n then some rest else none
  , crc := fun _ => 0 }

/-- Reached by the script `put 1 [0]; put 2 [0]; delete 1`: dirty, one live
key, one freed extent of length 23 in the free-slot index. -/
def stC1 : DbState Nat :=
  delete (put natListCodec (put natListCodec (openDb Nat) 1 [0]).1 2 [0]).1 1

/-- Reached by `put 1 (20 bytes); put 2 []; delete 1`: the tail of segment 1
is at 64 and a freed extent of length 42 starts at offset 0. -/
def stC3 : DbState Nat :=
  delete (put natListCodec (put natListCodec (openDb Nat) 1 (List.replicate 20 0)).1 2 []).1 1

/-- Reached by `put 1 [0]; sync`: a clean handle with one live key. -/
def stC4 : DbState Nat := sync (put natListCodec (openDb Nat) 1 [0]).1

/-- Reached by `put 1 (10 bytes); put 2 (30 bytes); delete 1; delete 2;
put 3 []`: the free-slot index holds an emptied length-32 bucket and a
nonempty length-52 bucket. -/
def stC5 : DbState Nat :=
  (put natListCodec
    (delete (delete (put natListCodec (put natListCodec (openDb Nat) 1
        (List.replicate 10 0)).1 2 (List.replicate 30 0)).1 1) 2) 3 []).1

/-- Reached by `put 1 [5]; sync; put 2 [7]`: dirty, with live records in
segment 1 and in the active segment 2. -/
def stC7 : DbState Nat :=
  (put natListCodec (sync (put natListCodec (openDb Nat) 1 [5]).1) 2 [7]).1

/-- Reached by `put 1 [5]; sync; put 2 (30 bytes); prune`: after the prune,
key 1's directory entry points into the active segment at an offset holding
part of key 2's record, whose bytes do not decode. -/
def stC6 : DbState Nat :=
  (prune natListCodec (put natListCodec (sync (put natListCodec (openDb Nat) 1 [5]).1) 2
     (List.replicate 30 9)).1).1

/-- Reached by `put 1 []; put 2 (20 bytes); sync; put 3 []; delete 1;
delete 2; delete 3; prune; put 4 (20 bytes)`: the empty-directory prune has
removed segment 2's file, and key 4 is live again in segment 1 while a
freed extent of the removed segment 2 sits in the length-22 bucket. -/
def stC2 : DbState Nat :=
  (put natListCodec
    (prune natListCodec
      (delete (delete (delete
        (put natListCodec
          (sync (put natListCodec (put natListCodec (openDb Nat) 1 []).1 2
            (List.replicate 20 0)).1) 3 []).1 1) 2) 3)).1 4 (List.replicate 20 1)).1

/-- A dirty handle with an empty directory, active segment 2, and both
segment files present (as after `put j; sync; put j2; delete j; delete j2`,
with the free buckets dropped for brevity). -/
def stW10 : DbState Nat :=
  { key_dir := []
  , delete_map := []
  , file_id := 2
  , file_position := 0
  , is_dirty := true
  , free_slots := []
  , fs := [((1, false), []), ((2, false), [])] }

/-- A dirty handle with one live key whose record round-trips. -/
def stW8 : DbState Nat := (put natListCodec (openDb Nat) 1 [0]).1

/-- The contents of the active segment's file in `stC6` after the prune:
the rewritten record of key 2. -/
def fC6 : Bytes :=
  [0, 0, 0, 0, 1, 0, 0, 0, 0, 0, 0, 0, 31, 0, 0, 0, 0, 0, 0, 0, 2, 30] ++
    List.replicate 30 9

/-- The contents of segment 1's file at `stC3`/`stC5`-style states: the
record of key 1 (20-byte value) followed by the record of key 2 (empty
value). -/
def fC3 : Bytes :=
  [0, 0, 0, 0, 1, 0, 0, 0, 0, 0, 0, 0, 21, 0, 0, 0, 0, 0, 0, 0, 1, 20] ++
    List.replicate 20 0 ++
    [0, 0, 0, 0, 1, 0, 0, 0, 0, 0, 0, 0, 1, 0, 0, 0, 0, 0, 0, 0, 2, 0]

/-! ### Association-list and sorted-map lemmas -/

theorem alLookup_alErase_eq {α β : Type} [DecidableEq α] (m : List (α × β)) (j i : α) :
    alLookup (alErase m j) i = if i = j then none else alLookup m i := by
  induction m with
  | nil => simp [alErase, alLookup]
  | cons p rest ih =>
    obtain ⟨k', v⟩ := p
    by_cases hk : k' = j
    · subst hk
      by_cases hij : i = k'
      · subst hij
        simp [alErase, ih]
      · simp [alErase, alLookup, hij, ih]
    · by_cases hij : i = k'
      · subst hij
        simp [alErase, alLookup, hk, Ne.symm hk]
      · simp [alErase, alLookup, hk, hij, ih]

theorem alLookup_alErase {α β : Type} [DecidableEq α] (m : List (α × β)) (k : α) :
    alLookup (alErase m k) k = none := by
  simp [alLookup_alErase_eq]

theorem alLookup_smInsert {α β : Type} [LinearOrder α] (m : List (α × β)) (k : α) (v : β) :
    alLookup (smInsert m k v) k = some v := by
  induction m with
  | nil => simp [smInsert, alLookup]
  | cons p rest ih =>
    obtain ⟨k', v'⟩ := p
    rcases lt_trichotomy k k' with h | h | h
    · simp [smInsert, h, alLookup]
    · simp [smInsert, h, alLookup]
    · have h1 : ¬ k < k' := not_lt_of_gt h
      have h2 : k ≠ k' := ne_of_gt h
      simp [smInsert, h1, h2, alLookup, ih]

theorem alLookup_smInsert_ne {α β : Type} [LinearOrder α] (m : List (α × β)) (k : α) (v : β)
    (i : α) (h : i ≠ k) : alLookup (smInsert m k v) i = alLookup m i := by
  induction m with
  | nil => simp [smInsert, alLookup, h]
  | cons p rest ih =>
    obtain ⟨k', v'⟩ := p
    rcases lt_trichotomy k k' with hlt | heq | hgt
    · simp [smInsert, hlt, alLookup, h]
    · subst heq
      simp [smInsert, alLookup, h]
    · have h1 : ¬ k < k' := not_lt_of_gt hgt
      have h2 : k ≠ k' := ne_of_gt hgt
      by_cases hik : i = k'
      · simp [smInsert, h1, h2, alLookup, hik]
      · simp [smInsert, h1, h2, alLookup, hik, ih]

/-- C1: the spec says a successful `prune` on a dirty handle leaves the
free-slot index empty, but the source's `prune` installs the new directory,
clears the delete-log and the dirty flag without ever touching
`free_slots`: at the reachable dirty state `stC1` the prune succeeds and
the length-23 bucket still holds the freed extent afterwards. -/
theorem prune_keeps_free_slots_nonempty :
    runOps natListCodec (openDb Nat) [Op.putOp 1 [0], Op.putOp 2 [0], Op.delOp 1]
      = some stC1 ∧
    stC1.is_dirty = true ∧
    (prune natListCodec stC1).2 = none ∧
    stC1.free_slots = [(23, [⟨1, 0, 23⟩])] ∧
    (prune natListCodec stC1).1.free_slots = stC1.free_slots := by
  refine ⟨by decide, by decide, by decide, by decide, by decide⟩

/-- C3: the spec says `put` updates `file_position` only when appending at
the tail and a free-slot reuse leaves it unchanged, but the reuse arm of
the source assigns `file_position = end_pos` of the reused slot: at `stC3`
the tail is 64, the reuse of the freed length-42 extent at offset 0
succeeds, and `file_position` is rewound to 22. -/
theorem put_reuse_rewinds_file_position :
    runOps natListCodec (openDb Nat)
      [Op.putOp 1 (List.replicate 20 0), Op.putOp 2 [], Op.delOp 1] = some stC3 ∧
    stC3.file_position = 64 ∧
    (put natListCodec stC3 3 []).2 = none ∧
    (put natListCodec stC3 3 []).1.file_position = 22 ∧
    (put natListCodec stC3 3 []).1.file_position < stC3.file_position := by
  refine ⟨by decide, by decide, by decide, by decide, by decide⟩

/-- C4 counterexample: at the reachable clean state `stC4` key 1 is live,
yet `delete 1` leaves the handle clean — the source's `delete` never sets
`is_dirty`, contradicting the claim that a delete of a live key on a clean
handle makes the handle dirty. -/
theorem delete_live_key_keeps_clean_cex :
    stC4.is_dirty = false ∧
    (alLookup stC4.key_dir 1).isSome = true ∧
    (delete stC4 1).is_dirty = false := by
  refine ⟨by decide, by decide, by decide⟩

/-- C5 counterexample: at the reachable state `stC5` the free-slot index
holds an extent of length 52 ≥ 32 (in the length-52 bucket), but a `put`
of total length 32 appends at the tail (offset 22, the current
`file_position`) because the smallest bucket of length ≥ 32 — the
length-32 bucket — is empty; the length-52 extent is left unconsumed. -/
theorem put_skips_larger_bucket_cex :
    runOps natListCodec (openDb Nat)
      [Op.putOp 1 (List.replicate 10 0), Op.putOp 2 (List.replicate 30 0),
       Op.delOp 1, Op.delOp 2, Op.putOp 3 []] = some stC5 ∧
    alLookup stC5.free_slots 52 = some [⟨1, 32, 84⟩] ∧
    alLookup stC5.free_slots 32 = some [] ∧
    totalLen natListCodec 4 (List.replicate 10 1) = 32 ∧
    stC5.file_position = 22 ∧
    (put natListCodec stC5 4 (List.replicate 10 1)).2 = none ∧
    alLookup (put natListCodec stC5 4 (List.replicate 10 1)).1.key_dir 4 =
      some ⟨1, 11, 43, ⟨1, 22, 54⟩⟩ ∧
    (put natListCodec stC5 4 (List.replicate 10 1)).1.free_slots = stC5.free_slots := by
  refine ⟨by decide, by decide, by decide, by decide, by decide, by decide, by decide, by decide⟩

/-- C7: the spec says the observable mapping `{k → get(k)}` is identical
before and after a successful `prune`, but at the reachable dirty state
`stC7` (live records in segment 1 and the active segment 2) the prune
succeeds and `get 1` flips from `[5]` to `[7]`: `serialize_to_file` labels
every rewritten entry with the ACTIVE segment id and only the active
segment's temp file is swapped, so key 1's entry ends up pointing into key
2's rewritten record. -/
theorem prune_changes_observable_map :
    runOps natListCodec (openDb Nat) [Op.putOp 1 [5], Op.syncOp, Op.putOp 2 [7]]
      = some stC7 ∧
    (prune natListCodec stC7).2 = none ∧
    get natListCodec stC7 1 = GetResult.found [5] ∧
    get natListCodec (prune natListCodec stC7).1 1 = GetResult.found [7] ∧
    get natListCodec (prune natListCodec stC7).1 1 ≠ get natListCodec stC7 1 := by
  refine ⟨by decide, by decide, by decide, by decide, by decide⟩

/-- C6 counterexample: at the reachable state `stC6` key 1 is live but its
entry's bytes do not decode, and the source's `get` hits an `expect` and
panics — it aborts instead of returning the caller an error value. -/
theorem get_panics_cex :
    runOps natListCodec (openDb Nat)
      [Op.putOp 1 [5], Op.syncOp, Op.putOp 2 (List.replicate 30 9), Op.pruneOp]
      = some stC6 ∧
    (alLookup stC6.key_dir 1).isSome = true ∧
    get natListCodec stC6 1 = GetResult.panicked := by
  refine ⟨by decide, by decide, by decide⟩

/-- C2 counterexample: at the reachable state `stC2` key 4 is live; a `put`
of key 4 first deletes the prior entry and then fails with an I/O error
(the chosen free slot lives in the segment file the earlier empty-directory
prune removed), leaving the engine state changed — key 4 is gone from the
directory — contrary to the claim that a failing `put` leaves the state
exactly as before. -/
theorem put_error_mutates_state_cex :
    runOps natListCodec (openDb Nat)
      [Op.putOp 1 [], Op.putOp 2 (List.replicate 20 0), Op.syncOp, Op.putOp 3 [],
       Op.delOp 1, Op.delOp 2, Op.delOp 3, Op.pruneOp, Op.putOp 4 (List.replicate 20 1)]
      = some stC2 ∧
    (alLookup stC2.key_dir 4).isSome = true ∧
    (put natListCodec stC2 4 []).2 = some DbErr.ioError ∧
    (put natListCodec stC2 4 []).1 ≠ stC2 ∧
    alLookup (put natListCodec stC2 4 []).1.key_dir 4 = none := by
  refine ⟨by decide, by decide, by decide, by decide, by decide⟩


/-- C8: `sync` on a dirty handle increments the segment id, creates and
truncates the new segment file, resets the tail to 0 and clears dirty,
while leaving the key directory (and every other field) untouched; on a
clean handle `sync` changes nothing. -/
theorem sync_spec {K : Type} (st : DbState K) :
    (st.is_dirty = true →
       sync st = { st with
                   file_id := st.file_id + 1
                   fs := alUpdate st.fs (st.file_id + 1, false) []
                   file_position := 0
                   is_dirty := false } ∧
       (sync st).key_dir = st.key_dir ∧
       (sync st).file_id = st.file_id + 1 ∧
       alLookup (sync st).fs (st.file_id + 1, false) = some [] ∧
       (sync st).file_position = 0 ∧
       (sync st).is_dirty = false) ∧
    (st.is_dirty = false → sync st = st) :=
  by
  constructor
  · intro h
    refine ⟨by simp [sync, h], by simp [sync, h], by simp [sync, h], ?_, by simp [sync, h],
      by simp [sync, h]⟩
    simp [sync, h, alUpdate, alLookup]
  · intro h
    simp [sync, h]

/-- Witness for C8 at concrete states: a dirty handle rolls to segment 2
with a clean flag, and `sync` on the fresh clean handle is the identity. -/
theorem sync_spec_witness :
    (sync stW8).file_id = 2 ∧ (sync stW8).is_dirty = false ∧
      sync (openDb Nat) = openDb Nat :=
  ⟨((sync_spec stW8).1 (by decide)).2.2.1, ((sync_spec stW8).1 (by decide)).2.2.2.2.2,
    (sync_spec (openDb Nat)).2 (by decide)⟩

/-- C9: deleting a key that is not in the directory returns successfully
and leaves the whole state unchanged, and `delete k; delete k` always ends
in the same state as a single `delete k` (the source's `delete` has no
fallible step, so both calls return ok). -/
theorem delete_noop_and_idempotent {K : Type} [LinearOrder K] (st : DbState K) (k : K) :
    (alLookup st.key_dir k = none → delete st k = st) ∧
    delete (delete st k) k = delete st k :=
  by
  have habsent : ∀ s : DbState K, alLookup s.key_dir k = none → delete s k = s := by
    intro s hs
    simp [delete, hs]
  refine ⟨habsent st, ?_⟩
  cases h : alLookup st.key_dir k with
  | none =>
    rw [habsent st h, habsent st h]
  | some e =>
    apply habsent
    simp [delete, h, alLookup_alErase]

/-- Witness for C9: deleting the absent key 5 on a fresh handle leaves it
unchanged, and a repeated delete of the live key 1 at `stC4` equals the
single delete. -/
theorem delete_noop_and_idempotent_witness :
    delete (openDb Nat) 5 = openDb Nat ∧
      delete (delete stC4 1) 1 = delete stC4 1 :=
  ⟨(delete_noop_and_idempotent (openDb Nat) 5).1 (by decide),
    (delete_noop_and_idempotent stC4 1).2⟩


/-- C2 (amended): when `put` returns an error, the engine state is exactly
`putBase st k` — the original state when `k` was not live, and the state
after the initial deletion of `k`'s prior entry (extent moved to the
free-slot index and delete-log) when it was; the deletion is not rolled
back.  `delete` itself has no fallible step. -/
theorem put_error_state_after_base {K V : Type} [LinearOrder K] (c : Codec K V)
    (st st' : DbState K) (k : K) (v : V) (e : DbErr)
    (h : put c st k v = (st', some e)) : st' = putBase st k :=
  by
  simp only [put] at h
  rcases hfb : findBucket (putBase st k).free_slots (totalLen c k v) with _ | ⟨len, slots⟩
  · rw [hfb] at h
    simp only [putAppend] at h
    rcases hfl : alLookup (putBase st k).fs ((putBase st k).file_id, false) with _ | f
    · rw [hfl] at h
      exact (Prod.mk.injEq _ _ _ _ ▸ h).1.symm
    · rw [hfl] at h
      simp at h
  · rw [hfb] at h
    simp only at h
    rcases hgl : slots.getLast? with _ | s
    · rw [hgl] at h
      simp only [putAppend] at h
      rcases hfl : alLookup (putBase st k).fs ((putBase st k).file_id, false) with _ | f
      · rw [hfl] at h
        exact (Prod.mk.injEq _ _ _ _ ▸ h).1.symm
      · rw [hfl] at h
        simp at h
    · rw [hgl] at h
      dsimp only at h
      rcases hfl : alLookup (putBase st k).fs (s.file_id, false) with _ | f
      · rw [hfl] at h
        exact (Prod.mk.injEq _ _ _ _ ▸ h).1.symm
      · rw [hfl] at h
        simp at h

/-- Witness for C2 (amended) at the reachable state `stC2`: the failing
`put 4 []` ends in exactly `putBase stC2 4`, the state with key 4's prior
entry already deleted. -/
theorem put_error_state_after_base_witness :
    (put natListCodec stC2 4 []).1 = putBase stC2 4 :=
  put_error_state_after_base natListCodec stC2 (put natListCodec stC2 4 []).1 4 []
    DbErr.ioError (by decide)


/-- C6 (amended): `get` returns `absent` for a key outside the directory;
for a live key it panics (the source unwraps with `expect`, aborting the
process) when the segment file is missing, when the read of `value_len`
bytes at `value_pos` is short, or when the bytes fail to decode, and only
otherwise returns the decoded value — it never returns an error value. -/
theorem get_outcome_spec {K V : Type} [LinearOrder K] (c : Codec K V)
    (st : DbState K) (k : K) :
    (alLookup st.key_dir k = none → get c st k = GetResult.absent) ∧
    (∀ e, alLookup st.key_dir k = some e →
      (alLookup st.fs (e.file_id, false) = none → get c st k = GetResult.panicked) ∧
      (∀ f, alLookup st.fs (e.file_id, false) = some f →
        (readAt f e.value_pos e.value_len = none → get c st k = GetResult.panicked) ∧
        (∀ buf, readAt f e.value_pos e.value_len = some buf →
          (c.decVal buf = none → get c st k = GetResult.panicked) ∧
          (∀ v, c.decVal buf = some v → get c st k = GetResult.found v)))) :=
  by
  refine ⟨fun h0 => by simp [get, h0], fun e h0 => ⟨fun h1 => by simp [get, h0, h1],
    fun f h1 => ⟨fun h2 => by simp [get, h0, h1, h2],
      fun buf h2 => ⟨fun h3 => by simp [get, h0, h1, h2, h3],
        fun v h3 => by simp [get, h0, h1, h2, h3]⟩⟩⟩⟩

/-- Witness for C6 (amended): on a fresh handle `get 0` is `absent`, and at
the reachable state `stC6` the bytes at key 1's entry fail to decode and
`get 1` panics. -/
theorem get_outcome_spec_witness :
    get natListCodec (openDb Nat) 0 = GetResult.absent ∧
      get natListCodec stC6 1 = GetResult.panicked :=
  ⟨(get_outcome_spec natListCodec (openDb Nat) 0).1 (by decide),
    ((((get_outcome_spec natListCodec stC6 1).2 ⟨2, 2, 21, ⟨2, 0, 23⟩⟩ (by decide)).2
      fC6 (by decide)).2 [30, 9] (by decide)).1 (by decide)⟩


theorem putAppend_free_slots {K V : Type} [LinearOrder K] (c : Codec K V)
    (st1 : DbState K) (k : K) (v : V) :
    (putAppend c st1 k v).1.free_slots = st1.free_slots := by
  unfold putAppend
  split <;> rfl

/-- C5 (amended): `put` consults only the FIRST length bucket of length at
least the record length `L`.  If that bucket is nonempty, `put` reuses its
last (most-recently-freed) extent: it writes at the extent's start, records
the new entry there, removes the consumed entry from that bucket and
re-adds no residual (all other buckets are untouched).  If that bucket is
empty, or no bucket of length ≥ L exists, `put` appends at the active
segment's tail — even when some larger nonempty bucket holds a usable
extent. -/
theorem put_first_fit_policy {K V : Type} [LinearOrder K] (c : Codec K V)
    (st : DbState K) (k : K) (v : V) :
    (∀ len slots s f,
       findBucket (putBase st k).free_slots (totalLen c k v) = some (len, slots) →
       slots.getLast? = some s →
       alLookup (putBase st k).fs (s.file_id, false) = some f →
       (put c st k v).2 = none ∧
       totalLen c k v ≤ len ∧
       alLookup (put c st k v).1.key_dir k =
         some ⟨s.file_id, (c.encVal v).length, s.start + (recordHeader c k v).length,
           ⟨s.file_id, s.start,
            s.start + (recordHeader c k v).length + (c.encVal v).length⟩⟩ ∧
       alLookup (put c st k v).1.free_slots len = some slots.dropLast ∧
       (∀ len2, len2 ≠ len →
          alLookup (put c st k v).1.free_slots len2 =
            alLookup (putBase st k).free_slots len2)) ∧
    (chooseSlot (putBase st k).free_slots (totalLen c k v) = none →
       (put c st k v).1.free_slots = (putBase st k).free_slots ∧
       put c st k v = putAppend c (putBase st k) k v) :=
  by
  constructor
  · intro len slots s f hfb hgl hfl
    simp only [put]
    rw [hfb]
    dsimp only
    rw [hgl]
    dsimp only
    rw [hfl]
    dsimp only
    refine ⟨rfl, ?_, ?_, ?_, ?_⟩
    · have := List.find?_some hfb
      simpa using this
    · exact alLookup_smInsert _ _ _
    · exact alLookup_smInsert _ _ _
    · intro len2 h2
      exact alLookup_smInsert_ne _ _ _ _ h2
  · intro hcs
    simp only [chooseSlot] at hcs
    rcases hfb : findBucket (putBase st k).free_slots (totalLen c k v) with _ | ⟨len, slots⟩
    · simp only [put]
      rw [hfb]
      dsimp only
      exact ⟨putAppend_free_slots c (putBase st k) k v, rfl⟩
    · rw [hfb] at hcs
      dsimp only at hcs
      simp only [put]
      rw [hfb]
      dsimp only
      rw [hcs]
      dsimp only
      exact ⟨putAppend_free_slots c (putBase st k) k v, rfl⟩

/-- Witness for C5 (amended) at the reachable state `stC3`: a `put` of
total length 22 reuses the last extent of the length-42 bucket, placing the
record at offset 0 of segment 1 and emptying the bucket. -/
theorem put_first_fit_policy_witness :
    (put natListCodec stC3 3 []).2 = none ∧
      alLookup (put natListCodec stC3 3 []).1.key_dir 3 = some ⟨1, 1, 21, ⟨1, 0, 22⟩⟩ ∧
      alLookup (put natListCodec stC3 3 []).1.free_slots 42 = some [] :=
  ⟨((put_first_fit_policy natListCodec stC3 3 []).1 42 [⟨1, 0, 42⟩] ⟨1, 0, 42⟩ fC3
      (by decide) (by decide) (by decide)).1,
    ((put_first_fit_policy natListCodec stC3 3 []).1 42 [⟨1, 0, 42⟩] ⟨1, 0, 42⟩ fC3
      (by decide) (by decide) (by decide)).2.2.1,
    ((put_first_fit_policy natListCodec stC3 3 []).1 42 [⟨1, 0, 42⟩] ⟨1, 0, 42⟩ fC3
      (by decide) (by decide) (by decide)).2.2.2.1⟩


theorem putAppend_ok_dirty {K V : Type} [LinearOrder K] (c : Codec K V)
    (st1 st' : DbState K) (k : K) (v : V)
    (h : putAppend c st1 k v = (st', none)) : st'.is_dirty = true := by
  unfold putAppend at h
  rcases hfl : alLookup st1.fs (st1.file_id, false) with _ | f
  · rw [hfl] at h
    injection h with h1 h2
    cases h2
  · rw [hfl] at h
    dsimp only at h
    injection h with h1 h2
    rw [← h1]

theorem put_ok_dirty {K V : Type} [LinearOrder K] (c : Codec K V)
    (st st' : DbState K) (k : K) (v : V)
    (h : put c st k v = (st', none)) : st'.is_dirty = true := by
  simp only [put] at h
  rcases hfb : findBucket (putBase st k).free_slots (totalLen c k v) with _ | ⟨len, slots⟩
  · rw [hfb] at h
    dsimp only at h
    exact putAppend_ok_dirty c (putBase st k) st' k v h
  · rw [hfb] at h
    dsimp only at h
    rcases hgl : slots.getLast? with _ | s
    · rw [hgl] at h
      dsimp only at h
      exact putAppend_ok_dirty c (putBase st k) st' k v h
    · rw [hgl] at h
      dsimp only at h
      rcases hfl : alLookup (putBase st k).fs (s.file_id, false) with _ | f
      · rw [hfl] at h
        injection h with h1 h2
        cases h2
      · rw [hfl] at h
        dsimp only at h
        injection h with h1 h2
        rw [← h1]

theorem delete_dirty {K : Type} [LinearOrder K] (st : DbState K) (k : K) :
    (delete st k).is_dirty = st.is_dirty := by
  unfold delete
  split <;> rfl

theorem sync_dirty {K : Type} (st : DbState K) : (sync st).is_dirty = false := by
  unfold sync
  split
  · rfl
  · next hc =>
    simp only [Bool.not_eq_true] at hc
    exact hc

theorem prune_ok_dirty {K V : Type} [LinearOrder K] (c : Codec K V)
    (st st' : DbState K) (h : prune c st = (st', none)) : st'.is_dirty = false := by
  unfold prune at h
  split at h
  · split at h
    · injection h with h1 h2
      cases h2
    · split at h
      · injection h with h1 h2
        cases h2
      · split at h
        · injection h with h1 h2
          cases h2
        · injection h with h1 h2
          rw [← h1]
  · next hc =>
    injection h with h1 h2
    rw [← h1]
    simp only [Bool.not_eq_true] at hc
    exact hc

theorem runOps_dirty {K V : Type} [LinearOrder K] (c : Codec K V) :
    ∀ (ops : List (Op K V)) (st st' : DbState K),
      runOps c st ops = some st' →
      st'.is_dirty = ops.foldl dirtyStep st.is_dirty := by
  intro ops
  induction ops with
  | nil =>
    intro st st' h
    simp only [runOps, Option.some.injEq] at h
    rw [← h]
    rfl
  | cons op rest ih =>
    intro st st' h
    unfold runOps at h
    rcases hap : applyOp c st op with ⟨stm, r⟩
    rw [hap] at h
    cases r with
    | some e =>
      dsimp only at h
      cases h
    | none =>
      dsimp only at h
      rw [List.foldl_cons]
      have hmid : stm.is_dirty = dirtyStep st.is_dirty op := by
        cases op with
        | putOp k v => exact put_ok_dirty c st stm k v hap
        | updateOp k v => exact put_ok_dirty c st stm k v hap
        | delOp k =>
          injection hap with h1 h2
          rw [← h1]
          exact delete_dirty st k
        | pruneOp => exact prune_ok_dirty c st stm hap
        | syncOp =>
          injection hap with h1 h2
          rw [← h1]
          exact sync_dirty st
      rw [← hmid]
      exact ih stm st' h

/-- C4 (amended): over any successfully completed workload from a fresh
handle, the handle is dirty iff a `put` (or `update`) occurred after the
last `sync`/`prune` (`putSinceClear`); a successful `put` always sets the
flag, `sync` and a successful `prune` always clear it, and `delete` —
contrary to the original claim — never changes it, so a delete of a live
key on a clean handle leaves the handle clean. -/
theorem dirty_iff_put_since_clear {K V : Type} [LinearOrder K] (c : Codec K V)
    (ops : List (Op K V)) (st' : DbState K)
    (h : runOps c (openDb K) ops = some st') :
    st'.is_dirty = putSinceClear ops := by
  have := runOps_dirty c ops (openDb K) st' h
  rw [this]
  rfl

/-- Witness for C4 (amended): after `put 1 [0]; delete 1` the handle is
dirty, matching `putSinceClear` of that script. -/
theorem dirty_iff_put_since_clear_witness :
    (delete (put natListCodec (openDb Nat) 1 [0]).1 1).is_dirty =
      putSinceClear [Op.putOp 1 [0], Op.delOp 1] :=
  dirty_iff_put_since_clear natListCodec [Op.putOp 1 [0], Op.delOp 1]
    (delete (put natListCodec (openDb Nat) 1 [0]).1 1) (by decide)


theorem removeFiles_preserves_none :
    ∀ (l : List Nat) (fs fs' : FS), removeFiles fs l = (fs', none) →
      ∀ fid, alLookup fs fid = none → alLookup fs' fid = none := by
  intro l
  induction l with
  | nil =>
    intro fs fs' h fid hn
    injection h with h1 h2
    rw [← h1]
    exact hn
  | cons i rest ih =>
    intro fs fs' h fid hn
    unfold removeFiles at h
    rcases hl : alLookup fs (i, false) with _ | f
    · rw [hl] at h
      injection h with h1 h2
      cases h2
    · rw [hl] at h
      dsimp only at h
      refine ih _ _ h fid ?_
      rw [alLookup_alErase_eq]
      split
      · rfl
      · exact hn

theorem removeFiles_removed :
    ∀ (l : List Nat) (fs fs' : FS), removeFiles fs l = (fs', none) →
      ∀ i ∈ l, alLookup fs' (i, false) = none := by
  intro l
  induction l with
  | nil =>
    intro fs fs' h i hi
    cases hi
  | cons j rest ih =>
    intro fs fs' h i hi
    unfold removeFiles at h
    rcases hl : alLookup fs (j, false) with _ | f
    · rw [hl] at h
      injection h with h1 h2
      cases h2
    · rw [hl] at h
      dsimp only at h
      rcases List.mem_cons.mp hi with rfl | hm
      · refine removeFiles_preserves_none rest _ _ h (i, false) ?_
        rw [alLookup_alErase_eq]
        simp
      · exact ih _ _ h i hm

/-- C10: on a dirty handle with an empty key directory and `file_id ≥ 2`, a
successful `prune` deletes every segment file with id in `[2, file_id]` —
including the active segment's own file — while `file_id` itself is
unchanged; consequently any later `put` that finds no usable free slot
takes the append arm, fails to open `{prefix}.{file_id}.db`, and returns an
I/O error leaving the state unchanged. -/
theorem prune_empty_dir_removes_segments {K V : Type} [LinearOrder K] (c : Codec K V)
    (st st' : DbState K) (hd : st.is_dirty = true) (he : st.key_dir = [])
    (h2 : 2 ≤ st.file_id) (hp : prune c st = (st', none)) :
    st'.file_id = st.file_id ∧ st'.key_dir = [] ∧
    (∀ i, 2 ≤ i → i ≤ st.file_id → alLookup st'.fs (i, false) = none) ∧
    (∀ k v, chooseSlot st'.free_slots (totalLen c k v) = none →
       put c st' k v = (st', some DbErr.ioError)) :=
  by
  simp only [prune, hd, he, List.isEmpty_nil, if_true] at hp
  rcases hrf : removeFiles st.fs (List.range' 2 (st.file_id - 1)) with ⟨fs0, r0⟩
  rw [hrf] at hp
  cases r0 with
  | some e =>
    dsimp only at hp
    injection hp with h1 h2x
    cases h2x
  | none =>
    simp only [pruneLoop, swapFiles] at hp
    injection hp with hst hnone
    have hfid : st'.file_id = st.file_id := by rw [← hst]
    have hkey : st'.key_dir = [] := by rw [← hst]
    have hrem : ∀ i, 2 ≤ i → i ≤ st.file_id → alLookup st'.fs (i, false) = none := by
      intro i hi1 hi2
      have hmem : i ∈ List.range' 2 (st.file_id - 1) := by
        rw [List.mem_range'_1]
        omega
      have := removeFiles_removed _ _ _ hrf i hmem
      rw [← hst]
      exact this
    refine ⟨hfid, hkey, hrem, ?_⟩
    intro k v hcs
    have hpb : putBase st' k = st' := by
      simp [putBase, hkey, alLookup]
    have hact : alLookup st'.fs (st'.file_id, false) = none := by
      rw [hfid]
      exact hrem st.file_id h2 (le_refl _)
    have happ : putAppend c st' k v = (st', some DbErr.ioError) := by
      unfold putAppend
      rw [hact]
    simp only [chooseSlot] at hcs
    simp only [put, hpb]
    rcases hfb : findBucket st'.free_slots (totalLen c k v) with _ | ⟨len, slots⟩
    · dsimp only
      exact happ
    · rw [hfb] at hcs
      dsimp only at hcs
      dsimp only
      rw [hcs]
      dsimp only
      exact happ

/-- Witness for C10 at `stW10` (dirty, empty directory, segments 1 and 2 on
disk): after the successful prune, segment 2's file is gone and a `put`
with an empty free-slot index returns an I/O error. -/
theorem prune_empty_dir_removes_segments_witness :
    alLookup (prune natListCodec stW10).1.fs (2, false) = none ∧
      put natListCodec (prune natListCodec stW10).1 9 [] =
        ((prune natListCodec stW10).1, some DbErr.ioError) :=
  ⟨(prune_empty_dir_removes_segments natListCodec stW10 (prune natListCodec stW10).1
      (by decide) (by decide) (by decide) (by decide)).2.2.1 2 (by decide) (by decide),
    (prune_empty_dir_removes_segments natListCodec stW10 (prune natListCodec stW10).1
      (by decide) (by decide) (by decide) (by decide)).2.2.2 9 [] (by decide)⟩

end Bitcask
